import Mathlib

/-!
Verification of the Euclid proof checker.

This file gives a shallow embedding of the repository sources
`src/euclid/parser.py`, `src/euclid/euclid.py` and `src/predicates.py`,
and proves or refutes the frozen claims about them.

Modelling conventions:
  - Python numeric token values are modelled by `TokenValue`: the constructor
    `int` keeps the exact integer of an integral literal, and `float num k`
    models the Python float produced from a literal with a decimal point as
    the exact rational `num / 10 ^ k` (the decimal literals compared in this
    development are all short enough that Python float rounding never merges
    or separates any two values that the exact rationals would not).
  - Python exceptions are modelled by `Except` error values; the distinct
    process-level endpoints of `euclid.py` (printing the success message,
    calling `error` which exits, an uncaught `AttributeError`) are modelled
    by the `Outcome` type.
  - The source pushes the token list reversed and pops from the back; the
    embedding consumes the same tokens from the front of the unreversed
    list, which is the identical order.
  - Recursion in the tokenizer and the recursive-descent parser is expressed
    with an explicit fuel parameter; the top-level entry points supply
    `length + 1` fuel, which is always sufficient because every recursive
    call consumes at least one character resp. token.  The fuel-exhaustion
    branches are unreachable artifacts of the embedding.
-/

namespace Euclid

/-! ## Tokens (`src/euclid/parser.py`, class `Token`) -/

/-- The `value` field of a `Token`: a string for symbols, keywords and
punctuation, a Python `int` for an integral `NUMBER`, a Python float
(modelled as the exact decimal `num / 10 ^ k`) for a `NUMBER` containing
a decimal point. -/
inductive TokenValue where
  | str (s : String)
  | int (n : Nat)
  | float (num k : Nat)
deriving DecidableEq

/-- `Token = namedtuple("Token", ["type", "value", "line", "column"])`. -/
structure Token where
  type : String
  value : TokenValue
  line : Nat
  column : Nat
deriving DecidableEq

/-- Python `==` on token values.  Python compares `int` and `float` values
numerically across types (`1 == 1.0` is `True`); a number never equals a
string. -/
def tokenValueEq : TokenValue → TokenValue → Bool
  | .str a, .str b => a == b
  | .int a, .int b => a == b
  | .int a, .float n k => a * 10 ^ k == n
  | .float n k, .int a => n == a * 10 ^ k
  | .float a j, .float b k => a * 10 ^ k == b * 10 ^ j
  | _, _ => false

/-- `Token.__eq__`: compares `type` and `value` only, never position. -/
def tokenEq (t u : Token) : Bool :=
  t.type == u.type && tokenValueEq t.value u.value

/-! ## Tokenizer (`src/euclid/parser.py`, `tokenize`) -/

/-- The unrecognized-character failure raised by `tokenize` (the source
raises `SyntaxError(f"{value!r} unexpected on line {lineno}, col {column}")`;
the payload components of that f-string are kept structurally). -/
structure LexError where
  text : String
  line : Nat
  column : Nat
deriving DecidableEq

/-- The message of the `SyntaxError` that `tokenize` raises. -/
def LexError.msg (e : LexError) : String :=
  "'" ++ e.text ++ "' unexpected on line " ++ toString e.line ++ ", col "
    ++ toString e.column

/-- `_tokenize_keywords` from the source. -/
def tokenizeKeywords : List String :=
  ["PROVE", "LET", "WHERE", "BY", "BE", "IS", "A", "AN", "DEFINITION",
   "SUBSTITUTION", "IF", "THEN", "THEREFORE"]

/-- Continuation characters of the `SYMBOL` pattern `[A-Za-z][A-Za-z0-9_]*`. -/
def isSymbolContinue (c : Char) : Bool :=
  c.isAlpha || c.isDigit || c == '_'

/-- Characters of the `SKIP` pattern `[ ,\t]+`. -/
def isSkipChar (c : Char) : Bool :=
  c == ' ' || c == ',' || c == '\t'

/-- Numeric value of a digit string (`int(value)` on a `\d+` match). -/
def digitsToNat (ds : List Char) : Nat :=
  ds.foldl (fun a c => a * 10 + (c.toNat - 48)) 0

/-- Python `str.upper()` on the ASCII identifier text this grammar
produces, as a character-wise map (`String.toUpper` itself is defined via
`String.mapAux`, which the kernel cannot reduce). -/
def upperAscii (s : String) : String :=
  String.mk (s.data.map Char.toUpper)

/-- Python `str.lower()`, character-wise (see `upperAscii`). -/
def lowerAscii (s : String) : String :=
  String.mk (s.data.map Char.toLower)

/-- Keyword reclassification in `tokenize`: a `SYMBOL` whose upper-cased
text is a keyword becomes that keyword kind, with `IS` normalized to `BE`
and `AN` normalized to `A`. -/
def symbolKind (text : String) : String :=
  let up := upperAscii text
  if tokenizeKeywords.contains up then
    if up == "IS" then "BE" else if up == "AN" then "A" else up
  else "SYMBOL"

/-- The scanning loop of `tokenize`.  `pos` is the absolute index of the
head of `cs` in the whole input, `lineno` the current 1-based line number,
`lineStart` the absolute index of the start of the current line (so a token
column is `pos - lineStart`, exactly the source computation
`mo.start() - line_start`).  The patterns are tried in the order of
`_tokenize_spec`: NUMBER, EQ, COLON, LPAREN, RPAREN, DOT, SYMBOL, NEWLINE,
SKIP, MISMATCH. -/
def tokenizeAux : Nat → List Char → Nat → Nat → Nat → Except LexError (List Token)
  | 0, _, _, _, _ =>
    -- fuel exhaustion: unreachable, every step below consumes a character
    .error ⟨"", 0, 0⟩
  | _ + 1, [], _, _, _ => .ok []
  | fuel + 1, c :: cs, pos, lineno, lineStart =>
    if c.isDigit then
      -- NUMBER: \d+(\.\d*)?   (greedy: a directly following period is
      -- absorbed together with any digits after it)
      let ds := (c :: cs).takeWhile Char.isDigit
      let rest1 := (c :: cs).dropWhile Char.isDigit
      if rest1.head? == some '.' then
        let fs := rest1.tail.takeWhile Char.isDigit
        let rest3 := rest1.tail.dropWhile Char.isDigit
        let tok : Token :=
          ⟨"NUMBER", .float (digitsToNat ds * 10 ^ fs.length + digitsToNat fs)
            fs.length, lineno, pos - lineStart⟩
        (tokenizeAux fuel rest3 (pos + ds.length + 1 + fs.length) lineno
          lineStart).map (tok :: ·)
      else
        let tok : Token := ⟨"NUMBER", .int (digitsToNat ds), lineno, pos - lineStart⟩
        (tokenizeAux fuel rest1 (pos + ds.length) lineno lineStart).map (tok :: ·)
    else if c == '=' then
      (tokenizeAux fuel cs (pos + 1) lineno lineStart).map
        (⟨"EQ", .str "=", lineno, pos - lineStart⟩ :: ·)
    else if c == ':' then
      (tokenizeAux fuel cs (pos + 1) lineno lineStart).map
        (⟨"COLON", .str ":", lineno, pos - lineStart⟩ :: ·)
    else if c == '(' then
      (tokenizeAux fuel cs (pos + 1) lineno lineStart).map
        (⟨"LPAREN", .str "(", lineno, pos - lineStart⟩ :: ·)
    else if c == ')' then
      (tokenizeAux fuel cs (pos + 1) lineno lineStart).map
        (⟨"RPAREN", .str ")", lineno, pos - lineStart⟩ :: ·)
    else if c == '.' then
      (tokenizeAux fuel cs (pos + 1) lineno lineStart).map
        (⟨"DOT", .str ".", lineno, pos - lineStart⟩ :: ·)
    else if c.isAlpha then
      -- SYMBOL: [A-Za-z][A-Za-z0-9_]*, then keyword reclassification
      let body := cs.takeWhile isSymbolContinue
      let rest := cs.dropWhile isSymbolContinue
      let text := String.mk (c :: body)
      let tok : Token := ⟨symbolKind text, .str text, lineno, pos - lineStart⟩
      (tokenizeAux fuel rest (pos + 1 + body.length) lineno lineStart).map (tok :: ·)
    else if c == '\n' then
      -- NEWLINE: line_start = mo.end(); lineno += 1; no token
      tokenizeAux fuel cs (pos + 1) (lineno + 1) (pos + 1)
    else if isSkipChar c then
      -- SKIP: [ ,\t]+, no token
      let run := (c :: cs).takeWhile isSkipChar
      let rest := (c :: cs).dropWhile isSkipChar
      tokenizeAux fuel rest (pos + run.length) lineno lineStart
    else
      -- MISMATCH
      .error ⟨String.singleton c, lineno, pos - lineStart⟩

/-- `tokenize(code)`: the full token list of the code, or the
unrecognized-character error. -/
def tokenize (code : String) : Except LexError (List Token) :=
  tokenizeAux (code.data.length + 1) code.data 0 1 0

/-! ## AST nodes (`src/euclid/parser.py`)

The source represents AST nodes as untyped namedtuples.  The embedding
collects all of them but `ProofNode` in one inductive type.  The source
quirk in `match_let_clause` of wrapping the already-built
`CompoundSymbolNode` in a second `CompoundSymbolNode` is modelled by the
dedicated constructor `CompoundSymbolOfNode` (same Python class, but its
`components` field holds a node instead of a token list). -/

inductive Node where
  | LetNode (symbol : Token) (formula : Node)
  | FormulaClauseNode (justification : Option Token) (formula : Node)
      (whereCl : Option Node)
  | ThereforeNode (formula : Node)
  | WhereNode (symbol : Token) (formula : Node)
  | IfNode (hypothesis : Node) (consequent : Node)
  | OpNode (op : String) (left : Node) (right : Node)
  | IsANode (term : Node) (definition : Node)
  | CompoundSymbolNode (components : List Token)
  | CompoundSymbolOfNode (components : Node)
  | NumberNode (number : Token)
  | SymbolNode (symbol : Token)

/-- `ProofNode = namedtuple("ProofNode", ["statement", "clauses"])`. -/
structure ProofNode where
  statement : Node
  clauses : List Node

/-- The Python class name of a node (`clause.__class__.__name__`). -/
def className : Node → String
  | .LetNode _ _ => "LetNode"
  | .FormulaClauseNode _ _ _ => "FormulaClauseNode"
  | .ThereforeNode _ => "ThereforeNode"
  | .WhereNode _ _ => "WhereNode"
  | .IfNode _ _ => "IfNode"
  | .OpNode _ _ _ => "OpNode"
  | .IsANode _ _ => "IsANode"
  | .CompoundSymbolNode _ => "CompoundSymbolNode"
  | .CompoundSymbolOfNode _ => "CompoundSymbolNode"
  | .NumberNode _ => "NumberNode"
  | .SymbolNode _ => "SymbolNode"

/-! ## Python equality on nodes

Namedtuples compare as tuples, so values of different node classes with
the same arity and equal fields compare equal in Python.  The cross-class
cases below are exactly the pairs whose field shapes can match
(token/node, node/node, token/token, node against node); every other
cross-class pair always differs in tuple arity or in the type of some
component (a `Token` is a 4-tuple and never equals a node; a component
list never equals a node or a token), hence is `false`. -/

def optTokenEq : Option Token → Option Token → Bool
  | none, none => true
  | some a, some b => tokenEq a b
  | _, _ => false

def tokenListEq : List Token → List Token → Bool
  | [], [] => true
  | x :: xs, y :: ys => tokenEq x y && tokenListEq xs ys
  | _, _ => false

def nodeEq : Node → Node → Bool
  | .LetNode s1 f1, .LetNode s2 f2 => tokenEq s1 s2 && nodeEq f1 f2
  | .LetNode s1 f1, .WhereNode s2 f2 => tokenEq s1 s2 && nodeEq f1 f2
  | .WhereNode s1 f1, .LetNode s2 f2 => tokenEq s1 s2 && nodeEq f1 f2
  | .WhereNode s1 f1, .WhereNode s2 f2 => tokenEq s1 s2 && nodeEq f1 f2
  | .FormulaClauseNode j1 f1 w1, .FormulaClauseNode j2 f2 w2 =>
      optTokenEq j1 j2 && nodeEq f1 f2 &&
        (match w1, w2 with
         | none, none => true
         | some a, some b => nodeEq a b
         | _, _ => false)
  | .ThereforeNode f1, .ThereforeNode f2 => nodeEq f1 f2
  | .ThereforeNode f1, .CompoundSymbolOfNode n2 => nodeEq f1 n2
  | .CompoundSymbolOfNode n1, .ThereforeNode f2 => nodeEq n1 f2
  | .IfNode h1 c1, .IfNode h2 c2 => nodeEq h1 h2 && nodeEq c1 c2
  | .IfNode h1 c1, .IsANode t2 d2 => nodeEq h1 t2 && nodeEq c1 d2
  | .IsANode t1 d1, .IfNode h2 c2 => nodeEq t1 h2 && nodeEq d1 c2
  | .IsANode t1 d1, .IsANode t2 d2 => nodeEq t1 t2 && nodeEq d1 d2
  | .OpNode o1 l1 r1, .OpNode o2 l2 r2 => o1 == o2 && nodeEq l1 l2 && nodeEq r1 r2
  | .CompoundSymbolNode c1, .CompoundSymbolNode c2 => tokenListEq c1 c2
  | .CompoundSymbolOfNode n1, .CompoundSymbolOfNode n2 => nodeEq n1 n2
  | .NumberNode n1, .NumberNode n2 => tokenEq n1 n2
  | .NumberNode n1, .SymbolNode s2 => tokenEq n1 s2
  | .SymbolNode s1, .NumberNode n2 => tokenEq s1 n2
  | .SymbolNode s1, .SymbolNode s2 => tokenEq s1 s2
  | _, _ => false

/-! ## Parser (`src/euclid/parser.py`)

The parse result is `Except String`, the error string being the message
of the `SyntaxError` the source raises. -/

/-- `check_token(tokens, expected_type)`. -/
def check_token (tokens : List Token) (expected : String) : Bool :=
  match tokens with
  | [] => false
  | t :: _ => t.type == expected

/-- `check_token_and_pop(tokens, expected_type)`. -/
def check_token_and_pop (tokens : List Token) (expected : String) :
    Except String (Token × List Token) :=
  match tokens with
  | [] => .error "premature end of input"
  | t :: ts =>
    if t.type == expected then .ok (t, ts)
    else
      .error ("got " ++ t.type ++ ", expected " ++ expected ++ ", line "
        ++ toString t.line ++ " col " ++ toString t.column)

/-- The `while check_token(tokens, "SYMBOL")` loop of
`match_compound_symbol`. -/
def take_symbol_tokens : List Token → (List Token × List Token)
  | [] => ([], [])
  | t :: ts =>
    if t.type == "SYMBOL" then
      let (syms, rest) := take_symbol_tokens ts
      (t :: syms, rest)
    else ([], t :: ts)

/-- `match_compound_symbol(tokens)`. -/
def match_compound_symbol (tokens : List Token) :
    Except String (Node × List Token) := do
  let (first, r1) ← check_token_and_pop tokens "SYMBOL"
  let (more, r2) := take_symbol_tokens r1
  .ok (.CompoundSymbolNode (first :: more), r2)

mutual

/-- `match_formula(tokens)`.  `tokens.tail` after a positive `check_token`
models the `tokens.pop()` of the source. -/
def match_formula : Nat → List Token → Except String (Node × List Token)
  | 0, _ => .error "out of fuel"
  | fuel + 1, tokens =>
    if check_token tokens "IF" then do
      let (hypothesis, r1) ← match_formula fuel tokens.tail
      let (_, r2) ← check_token_and_pop r1 "THEN"
      let (consequent, r3) ← match_formula fuel r2
      .ok (.IfNode hypothesis consequent, r3)
    else do
      let (term, r1) ← match_term fuel tokens
      if check_token r1 "EQ" then do
        let (right, r2) ← match_term fuel r1.tail
        .ok (.OpNode "=" term right, r2)
      else do
        let (_, r2) ← check_token_and_pop r1 "BE"
        let (_, r3) ← check_token_and_pop r2 "A"
        let (cs, r4) ← match_compound_symbol r3
        .ok (.IsANode term cs, r4)

/-- `match_term(tokens)`. -/
def match_term : Nat → List Token → Except String (Node × List Token)
  | 0, _ => .error "out of fuel"
  | _ + 1, [] =>
    -- the source falls through to check_token_and_pop(tokens, "LPAREN"),
    -- which raises "premature end of input" on an empty token list
    .error "premature end of input"
  | fuel + 1, t :: ts =>
    if t.type == "SYMBOL" then .ok (.SymbolNode t, ts)
    else if t.type == "NUMBER" then
      match ts with
      | t2 :: ts2 =>
        if t2.type == "SYMBOL" then
          .ok (.OpNode "*" (.NumberNode t) (.SymbolNode t2), ts2)
        else if t2.type == "LPAREN" then do
          let (right, r1) ← match_term fuel ts2
          let (_, r2) ← check_token_and_pop r1 "RPAREN"
          .ok (.OpNode "*" (.NumberNode t) right, r2)
        else .ok (.NumberNode t, t2 :: ts2)
      | [] => .ok (.NumberNode t, [])
    else do
      let (_, r1) ← check_token_and_pop (t :: ts) "LPAREN"
      let (term, r2) ← match_term fuel r1
      let (_, r3) ← check_token_and_pop r2 "RPAREN"
      .ok (term, r3)

end

/-- `match_justification(tokens)`. -/
def match_justification : List Token → Except String (Token × List Token)
  | t :: ts =>
    if t.type == "DEFINITION" then .ok (t, ts)
    else check_token_and_pop (t :: ts) "SUBSTITUTION"
  | [] => check_token_and_pop [] "SUBSTITUTION"

/-- `match_where_clause(tokens)` (consumes the WHERE token itself). -/
def match_where_clause (tokens : List Token) :
    Except String (Node × List Token) := do
  let (_, r1) ← check_token_and_pop tokens "WHERE"
  let (symbol, r2) ← check_token_and_pop r1 "SYMBOL"
  let (_, r3) ← check_token_and_pop r2 "BE"
  let (_, r4) ← check_token_and_pop r3 "A"
  let (cs, r5) ← match_compound_symbol r4
  .ok (.WhereNode symbol cs, r5)

/-- `match_let_clause(tokens)`.  Note the source wraps the result of
`match_compound_symbol` (itself already a `CompoundSymbolNode`) in a second
`CompoundSymbolNode`, modelled by `CompoundSymbolOfNode`. -/
def match_let_clause (fuel : Nat) (tokens : List Token) :
    Except String (Node × List Token) := do
  let (_, r1) ← check_token_and_pop tokens "LET"
  let (symbol, r2) ← check_token_and_pop r1 "SYMBOL"
  if check_token r2 "EQ" then do
    let (term, r3) ← match_term fuel r2.tail
    let (_, r4) ← check_token_and_pop r3 "DOT"
    .ok (.LetNode symbol term, r4)
  else do
    let (_, r3) ← check_token_and_pop r2 "BE"
    let (_, r4) ← check_token_and_pop r3 "A"
    let (cs, r5) ← match_compound_symbol r4
    let (_, r6) ← check_token_and_pop r5 "DOT"
    .ok (.LetNode symbol (.CompoundSymbolOfNode cs), r6)

/-- `match_therefore_clause(tokens)`. -/
def match_therefore_clause (fuel : Nat) (tokens : List Token) :
    Except String (Node × List Token) := do
  let (_, r1) ← check_token_and_pop tokens "THEREFORE"
  let (formula, r2) ← match_formula fuel r1
  let (_, r3) ← check_token_and_pop r2 "DOT"
  .ok (.ThereforeNode formula, r3)

/-- `match_formula_clause(tokens)`. -/
def match_formula_clause (fuel : Nat) (tokens : List Token) :
    Except String (Node × List Token) := do
  let (justification, r1) ←
    if check_token tokens "BY" then do
      let (j, r) ← match_justification tokens.tail
      .ok (some j, r)
    else
      .ok ((none : Option Token), tokens)
  let (formula, r2) ← match_formula fuel r1
  let (whereCl, r3) ←
    if check_token r2 "WHERE" then do
      let (w, r) ← match_where_clause r2
      .ok (some w, r)
    else
      .ok ((none : Option Node), r2)
  let (_, r4) ← check_token_and_pop r3 "DOT"
  .ok (.FormulaClauseNode justification formula whereCl, r4)

/-- `match_clause(tokens)`. -/
def match_clause (fuel : Nat) (tokens : List Token) :
    Except String (Node × List Token) :=
  if check_token tokens "LET" then match_let_clause fuel tokens
  else if check_token tokens "THEREFORE" then match_therefore_clause fuel tokens
  else match_formula_clause fuel tokens

/-- The `while tokens: clauses.append(match_clause(tokens))` loop of
`match_proof`.  Every successful `match_clause` consumes at least the
terminating DOT token, so `length + 1` fuel never exhausts. -/
def match_clauses : Nat → List Token → Except String (List Node)
  | _, [] => .ok []
  | 0, _ :: _ => .error "out of fuel"
  | fuel + 1, t :: ts => do
    let (c, rest) ← match_clause (fuel + 1) (t :: ts)
    let cs ← match_clauses fuel rest
    .ok (c :: cs)

/-- `match_proof_statement(tokens)`. -/
def match_proof_statement (fuel : Nat) (tokens : List Token) :
    Except String (Node × List Token) := do
  let (_, r1) ← check_token_and_pop tokens "PROVE"
  let (_, r2) ← check_token_and_pop r1 "COLON"
  let (formula, r3) ← match_formula fuel r2
  let (_, r4) ← check_token_and_pop r3 "DOT"
  .ok (formula, r4)

/-- `match_proof(tokens)`. -/
def match_proof (fuel : Nat) (tokens : List Token) : Except String ProofNode := do
  let (statement, rest) ← match_proof_statement fuel tokens
  let clauses ← match_clauses fuel rest
  .ok ⟨statement, clauses⟩

/-- `parse(code)`.  A `SyntaxError` raised by the tokenizer propagates out
of `parse` exactly like a parser `SyntaxError`; `check_proof` only ever
sees `str(e)`, so the lexer error is rendered to its message here. -/
def parse (code : String) : Except String ProofNode :=
  match tokenize code with
  | .error e => .error e.msg
  | .ok tokens => match_proof (tokens.length + 1) tokens

/-! ## `line` (`src/euclid/parser.py`)

The source dispatches on the node class and recurses; for a `Token` it has
no branch, so `line` applied (via `LetNode`, `WhereNode` or
`CompoundSymbolNode`, whose first components are tokens) to a `Token`
raises `RuntimeError("unknown node type Token")`.  Those crashing cases
are modelled as `none`. -/

def line : Node → Option Nat
  | .LetNode _ _ => none        -- line(node.symbol) with symbol a Token: RuntimeError
  | .FormulaClauseNode _ f _ => line f
  | .ThereforeNode f => line f
  | .WhereNode _ _ => none      -- line(node.symbol) with symbol a Token: RuntimeError
  | .IfNode h _ => line h
  | .OpNode _ l _ => line l
  | .IsANode t _ => line t
  | .CompoundSymbolNode _ => none    -- line(components[0]) with a Token: RuntimeError
  | .CompoundSymbolOfNode _ => none  -- line(components[0]) with a token list: RuntimeError
  | .NumberNode t => some t.line
  | .SymbolNode t => some t.line

/-! ## Python repr of nodes (used in the f-string of `check_clause`) -/

/-- Zero-pad a digit string on the left to length `k` (fractional digits of
a float). -/
def padZeros (s : String) (k : Nat) : String :=
  String.mk (List.replicate (k - s.length) '0') ++ s

/-- Decimal rendering of the float `num / 10 ^ k`.  For the literals this
grammar produces (no trailing zeros in the fractional part) this is the
Python float repr; a fractional part with trailing zeros would be printed
by Python in shortened form, a case no theorem below depends on. -/
def floatRepr (num k : Nat) : String :=
  if k == 0 then toString num ++ ".0"
  else toString (num / 10 ^ k) ++ "." ++ padZeros (toString (num % 10 ^ k)) k

def pyReprValue : TokenValue → String
  | .str s => "'" ++ s ++ "'"
  | .int n => toString n
  | .float num k => floatRepr num k

def pyReprToken (t : Token) : String :=
  "Token(type='" ++ t.type ++ "', value=" ++ pyReprValue t.value ++ ", line="
    ++ toString t.line ++ ", column=" ++ toString t.column ++ ")"

def pyReprOptToken : Option Token → String
  | none => "None"
  | some t => pyReprToken t

def pyReprTokenList (ts : List Token) : String :=
  "[" ++ String.intercalate ", " (ts.map pyReprToken) ++ "]"

def pyReprNode : Node → String
  | .LetNode s f => "LetNode(symbol=" ++ pyReprToken s ++ ", formula="
      ++ pyReprNode f ++ ")"
  | .FormulaClauseNode j f w =>
      "FormulaClauseNode(justification=" ++ pyReprOptToken j ++ ", formula="
        ++ pyReprNode f ++ ", where="
        ++ (match w with | none => "None" | some n => pyReprNode n) ++ ")"
  | .ThereforeNode f => "ThereforeNode(formula=" ++ pyReprNode f ++ ")"
  | .WhereNode s f => "WhereNode(symbol=" ++ pyReprToken s ++ ", formula="
      ++ pyReprNode f ++ ")"
  | .IfNode h c => "IfNode(hypothesis=" ++ pyReprNode h ++ ", consequent="
      ++ pyReprNode c ++ ")"
  | .OpNode o l r => "OpNode(op='" ++ o ++ "', left=" ++ pyReprNode l
      ++ ", right=" ++ pyReprNode r ++ ")"
  | .IsANode t d => "IsANode(term=" ++ pyReprNode t ++ ", definition="
      ++ pyReprNode d ++ ")"
  | .CompoundSymbolNode cs => "CompoundSymbolNode(components="
      ++ pyReprTokenList cs ++ ")"
  | .CompoundSymbolOfNode n => "CompoundSymbolNode(components="
      ++ pyReprNode n ++ ")"
  | .NumberNode t => "NumberNode(number=" ++ pyReprToken t ++ ")"
  | .SymbolNode t => "SymbolNode(symbol=" ++ pyReprToken t ++ ")"

/-! ## `src/predicates.py`

Note the module as written cannot even be imported: the `_predicates`
table at the top of the file references `is_even` and `is_odd` before
either function is defined, so importing the module raises `NameError`.
No file of the repository imports it.  The functions are embedded as
they read. -/

/-- `is_even(val)` (Python `%` on ints agrees with `Int.emod` for positive
modulus). -/
def is_even (val : Int) : Bool := val % 2 == 0

/-- `is_odd(val)`. -/
def is_odd (val : Int) : Bool := val % 2 == 1

/-- `check_predicate(name, val)`; a name not in the table raises
`KeyError`, modelled as `none`. -/
def check_predicate (name : String) (val : Int) : Option Bool :=
  if lowerAscii name == "even" then some (is_even val)
  else if lowerAscii name == "odd" then some (is_odd val)
  else none

/-! ## Proof validator (`src/euclid/euclid.py`) -/

/-- `Expression = namedtuple("Expression", ["properties", "equivalent"])`.
Neither field is ever read or written anywhere in the source. -/
structure Expression where
  properties : List Node
  equivalent : List Node

/-- `Knowledge = namedtuple("Knowledge", ["expressions"])`. -/
structure Knowledge where
  expressions : List Expression

/-- The process-level endpoints of `euclid.py`:
`accepted` is reaching `print("No errors were detected in the proof.")`;
`errorExit pfx msg` is a call of `error(msg, prefix=pfx)` (which writes
`"{prefix}: {msg}"` to stderr and exits with code 2);
`attributeError` is an uncaught Python `AttributeError`;
`runtimeError` is an uncaught Python `RuntimeError`. -/
inductive Outcome where
  | accepted
  | errorExit (pfx msg : String)
  | attributeError (msg : String)
  | runtimeError (msg : String)
deriving DecidableEq

/-- Whether an outcome is the success verdict. -/
def isAccepted : Outcome → Bool
  | .accepted => true
  | _ => false

/-- `follows(knowledge, formula, justification=None)`: the source is a
permanent stub returning `False`. -/
def follows (knowledge : Knowledge) (formula : Node)
    (justification : Option Token) : Bool :=
  false

/-- `formula_equals(left, right)` is Python `==` on the two nodes. -/
def formula_equals (left right : Node) : Bool := nodeEq left right

/-- `update_knowledge(knowledge, clause)`: the source body is `pass`. -/
def update_knowledge (knowledge : Knowledge) (clause : Node) : Knowledge :=
  knowledge

/-- `check_clause(knowledge, clause)`: an `error` call exits the process
(the `Except` error side); otherwise the (unchanged) knowledge flows on. -/
def check_clause (knowledge : Knowledge) (clause : Node) :
    Except Outcome Knowledge :=
  match clause with
  | .FormulaClauseNode j f w =>
    if !(follows knowledge f j) then
      -- the f-string evaluates str(clause) and line(clause) before error()
      match line (.FormulaClauseNode j f w) with
      | some n =>
        .error (.errorExit "Error"
          (pyReprNode (.FormulaClauseNode j f w) ++ " does not follow, line "
            ++ toString n ++ ")"))
      | none => .error (.runtimeError "unknown node type Token")
    else .ok (update_knowledge knowledge (.FormulaClauseNode j f w))
  | c =>
    .error (.errorExit "Internal error" ("unknown node type " ++ className c))

/-- `isinstance(node, parser.IfNode)`. -/
def isIfNode : Node → Bool
  | .IfNode _ _ => true
  | _ => false

/-- The `.formula` attribute of an AST node (every clause class and
`WhereNode` have it); `none` models the `AttributeError` that any other
node class would raise. -/
def clauseFormulaAttr : Node → Option Node
  | .LetNode _ f => some f
  | .FormulaClauseNode _ f _ => some f
  | .ThereforeNode f => some f
  | .WhereNode _ f => some f
  | _ => none

/-- `check_proof(proof)` with `proof` the raw source text (as called from
`run.py`).  Faithful to the source, including its two fatal attribute
accesses: on a conditional goal the consequent check reads
`ast.statements` (a `ProofNode` has no such field), and the clause walk
reads `proof.clauses` on the input *string*; both raise `AttributeError`
before `print` can be reached. -/
def check_proof (proof : String) : Outcome :=
  match parse proof with
  | .error e => .errorExit "Error" e
  | .ok ast =>
    match ast.clauses with
    | [] => .errorExit "Error" "the body of the proof is empty"
    | c0 :: _ =>
      match ast.statement with
      | .IfNode hypothesis _ =>
        match clauseFormulaAttr c0 with
        | none =>
          .attributeError ("'" ++ className c0 ++ "' object has no attribute 'formula'")
        | some f0 =>
          if !(formula_equals hypothesis f0) then
            .errorExit "Error"
              ("the first statement of the proof does not match the hypothesis of the "
                ++ "if statement to be proven")
          else
            -- ast.statements does not exist on ProofNode
            .attributeError "'ProofNode' object has no attribute 'statements'"
      | stmt =>
        match clauseFormulaAttr c0 with
        | none =>
          .attributeError ("'" ++ className c0 ++ "' object has no attribute 'formula'")
        | some f0 =>
          if !(formula_equals stmt f0) then
            .errorExit "Error"
              ("the final statement of the proof does not match the statement to be "
                ++ "proven")
          else
            -- for clause in proof.clauses: proof is a str
            .attributeError "'str' object has no attribute 'clauses'"

/-! ## Specification-side character location

To state what the line/column payload of a `LexError` means, we define the
character sitting at a given 1-based line and 0-based column of a text,
independently of the scanner. -/

/-- The suffix of the text starting at the given 1-based line (`none` if
the text has fewer lines). -/
def afterLines : Nat → List Char → Option (List Char)
  | 0, _ => none
  | 1, cs => some cs
  | n + 2, cs =>
    match cs.dropWhile (· != '\n') with
    | [] => none
    | _ :: rest => afterLines (n + 1) rest

/-- The characters of the given 1-based line. -/
def lineChars (n : Nat) (cs : List Char) : Option (List Char) :=
  (afterLines n cs).map (List.takeWhile (· != '\n'))

/-- The character at 1-based line `ln`, 0-based column `col`. -/
def locate (cs : List Char) (ln col : Nat) : Option Char :=
  (lineChars ln cs).bind (fun l => l.get? col)

/-- A character that matches none of the patterns of `_tokenize_spec`
except the catch-all `MISMATCH`, when standing at the start of a match. -/
def mismatchChar (c : Char) : Bool :=
  !(c.isDigit || c == '=' || c == ':' || c == '(' || c == ')' || c == '.'
    || c.isAlpha || c == '\n' || isSkipChar c)

/-- A mismatch character that can never be absorbed into a longer match
either (`_` is a mismatch character on its own but is absorbed inside a
`SYMBOL` run): an input containing such a character always fails to
tokenize. -/
def strongMismatchChar (c : Char) : Bool :=
  mismatchChar c && !(c == '_')


/-! ## Lexer lemmas

The two inductions below follow the scanning loop: `ScanInv` relates the
consumed prefix to the running line/column state, and every consuming
branch preserves it, so the error payload of a `MISMATCH` locates the
offending character; and since no branch ever consumes a strong mismatch
character, an input containing one always ends in an error. -/


theorem except_map_eq_error {α β γ : Type} {f : α → β} {x : Except γ α} {e : γ}
    (h : x.map f = .error e) : x = .error e := by
  cases x <;> simp_all [Except.map]

theorem takeWhile_append_all {p : Char → Bool} {l1 : List Char} (l2 : List Char)
    (h : ∀ a ∈ l1, p a = true) :
    (l1 ++ l2).takeWhile p = l1 ++ l2.takeWhile p := by
  rw [List.takeWhile_append]
  simp [List.takeWhile_eq_self_iff.mpr h]

theorem dropWhile_append_all {p : Char → Bool} {l1 : List Char} (l2 : List Char)
    (h : ∀ a ∈ l1, p a = true) :
    (l1 ++ l2).dropWhile p = l2.dropWhile p := by
  rw [List.dropWhile_append]
  simp [List.dropWhile_eq_nil_iff.mpr h]

/-- Scanner state invariant: `done` is the consumed prefix, `lineno` the
current 1-based line number, `lineStart` the absolute index of the start
of the current line. -/
def ScanInv (done : List Char) (lineno lineStart : Nat) : Prop :=
  lineStart ≤ done.length ∧
  (∀ a ∈ done.drop lineStart, (a != '\n') = true) ∧
  (∀ x : List Char, afterLines lineno (done ++ x) = some (done.drop lineStart ++ x))

theorem scanInv_init : ScanInv [] 1 0 := by
  refine ⟨Nat.le_refl _, by simp, ?_⟩
  intro x
  simp [afterLines]

theorem scanInv_run {done : List Char} {lineno lineStart : Nat}
    (h : ScanInv done lineno lineStart)
    (r : List Char) (hr : ∀ a ∈ r, (a != '\n') = true) :
    ScanInv (done ++ r) lineno lineStart := by
  obtain ⟨h1, h2, h3⟩ := h
  refine ⟨h1.trans (by simp), ?_, ?_⟩
  · intro a ha
    rw [List.drop_append_of_le_length h1] at ha
    rcases List.mem_append.mp ha with hl | hr2
    · exact h2 a hl
    · exact hr a hr2
  · intro x
    rw [List.append_assoc, h3 (r ++ x), List.drop_append_of_le_length h1,
      List.append_assoc]

theorem afterLines_newline {n : Nat} :
    ∀ {ys pre x : List Char}, afterLines n ys = some (pre ++ '\n' :: x) →
    (∀ a ∈ pre, (a != '\n') = true) →
    afterLines (n + 1) ys = some x := by
  induction n with
  | zero =>
    intro ys pre x h _
    simp [afterLines] at h
  | succ n ih =>
    intro ys pre x h hpre
    cases n with
    | zero =>
      simp only [afterLines, Option.some.injEq] at h
      subst h
      show afterLines 2 (pre ++ '\n' :: x) = some x
      simp only [afterLines, dropWhile_append_all _ hpre]
      simp [afterLines, List.dropWhile]
    | succ m =>
      simp only [afterLines] at h ⊢
      cases hdrop : ys.dropWhile (· != '\n') with
      | nil => rw [hdrop] at h; simp at h
      | cons d rest =>
        rw [hdrop] at h
        simp only at h
        exact ih h hpre

theorem scanInv_nl {done : List Char} {lineno lineStart : Nat}
    (h : ScanInv done lineno lineStart) :
    ScanInv (done ++ ['\n']) (lineno + 1) (done.length + 1) := by
  obtain ⟨h1, h2, h3⟩ := h
  refine ⟨by simp, ?_, ?_⟩
  · intro a ha
    simp at ha
  · intro x
    have h4 : afterLines (lineno + 1) (done ++ '\n' :: x) = some x :=
      afterLines_newline (h3 ('\n' :: x)) h2
    rw [List.append_assoc]
    simp only [List.singleton_append]
    rw [h4]
    rw [List.drop_eq_nil_of_le (by simp)]
    simp



set_option maxHeartbeats 1000000

theorem tokenizeAux_error_locates :
    ∀ (fuel : Nat) (cs done : List Char) (lineno lineStart : Nat) (e : LexError),
    ScanInv done lineno lineStart →
    cs.length < fuel →
    tokenizeAux fuel cs done.length lineno lineStart = .error e →
    ∃ c, mismatchChar c = true ∧ e.text = String.singleton c ∧
      locate (done ++ cs) e.line e.column = some c := by
  intro fuel
  induction fuel with
  | zero =>
    intro cs done lineno lineStart e _ hlt _
    omega
  | succ fuel ih =>
    intro cs done lineno lineStart e hinv hlt h
    cases cs with
    | nil => simp [tokenizeAux] at h
    | cons c cs' =>
      simp only [tokenizeAux] at h
      by_cases hdig : c.isDigit
      · simp only [hdig, if_true] at h
        by_cases hdot : ((c :: cs').dropWhile Char.isDigit).head? == some '.'
        · simp only [hdot, if_true] at h
          replace h := except_map_eq_error h
          have hr1 : (c :: cs').dropWhile Char.isDigit =
              '.' :: ((c :: cs').dropWhile Char.isDigit).tail := by
            cases hr : (c :: cs').dropWhile Char.isDigit with
            | nil => rw [hr] at hdot; simp at hdot
            | cons d t =>
              rw [hr] at hdot
              simp only [List.head?_cons, beq_iff_eq, Option.some.injEq] at hdot
              subst hdot
              simp
          have hdec := List.takeWhile_append_dropWhile (p := Char.isDigit) (l := c :: cs')
          have hdec2 := List.takeWhile_append_dropWhile (p := Char.isDigit)
            (l := ((c :: cs').dropWhile Char.isDigit).tail)
          have hfull : c :: cs' =
              ((c :: cs').takeWhile Char.isDigit ++ '.' ::
                (((c :: cs').dropWhile Char.isDigit).tail.takeWhile Char.isDigit)) ++
              (((c :: cs').dropWhile Char.isDigit).tail.dropWhile Char.isDigit) := by
            conv_lhs => rw [← hdec, hr1]
            rw [← hdec2]
            simp
          have hall : ∀ a ∈ (c :: cs').takeWhile Char.isDigit ++ '.' ::
              (((c :: cs').dropWhile Char.isDigit).tail.takeWhile Char.isDigit),
              (a != '\n') = true := by
            intro a ha
            simp only [bne_iff_ne, ne_eq]
            intro heq
            subst heq
            rcases List.mem_append.mp ha with hl | hr2
            · have := List.mem_takeWhile_imp hl
              simp at this
            · rcases List.mem_cons.mp hr2 with hl2 | hr3
              · simp at hl2
              · have := List.mem_takeWhile_imp hr3
                simp at this
          have hpos : done.length + ((c :: cs').takeWhile Char.isDigit).length + 1 +
              (((c :: cs').dropWhile Char.isDigit).tail.takeWhile Char.isDigit).length =
              (done ++ ((c :: cs').takeWhile Char.isDigit ++ '.' ::
                (((c :: cs').dropWhile Char.isDigit).tail.takeWhile Char.isDigit))).length := by
            simp
            omega
          rw [hpos] at h
          have hlenfull := congrArg List.length hfull
          simp only [List.length_cons, List.length_append] at hlenfull hlt
          have hkey := ih _ _ _ _ _ (scanInv_run hinv _ hall) (by omega) h
          obtain ⟨w, hw1, hw2, hw3⟩ := hkey
          refine ⟨w, hw1, hw2, ?_⟩
          rw [List.append_assoc, ← hfull] at hw3
          exact hw3
        · simp only [hdot, Bool.false_eq_true, if_false] at h
          replace h := except_map_eq_error h
          have hdec := List.takeWhile_append_dropWhile (p := Char.isDigit) (l := c :: cs')
          have hdslen := congrArg List.length hdec
          rw [List.length_append] at hdslen
          have htl : 1 ≤ ((c :: cs').takeWhile Char.isDigit).length := by
            simp [List.takeWhile_cons, hdig]
          have hall : ∀ a ∈ (c :: cs').takeWhile Char.isDigit, (a != '\n') = true := by
            intro a ha
            have := List.mem_takeWhile_imp ha
            simp only [bne_iff_ne, ne_eq]
            intro heq
            subst heq
            simp at this
          have hpos : done.length + ((c :: cs').takeWhile Char.isDigit).length =
              (done ++ (c :: cs').takeWhile Char.isDigit).length := by simp
          rw [hpos] at h
          have hkey := ih _ _ _ _ _ (scanInv_run hinv _ hall)
            (by simp only [List.length_cons] at hdslen hlt; omega) h
          obtain ⟨w, hw1, hw2, hw3⟩ := hkey
          refine ⟨w, hw1, hw2, ?_⟩
          rw [List.append_assoc, hdec] at hw3
          exact hw3
      · simp only [hdig, Bool.false_eq_true, if_false] at h
        have hpunct : ∀ ch : Char, (ch != '\n') = true → c = ch →
            tokenizeAux fuel cs' (done.length + 1) lineno lineStart = .error e →
            ∃ w, mismatchChar w = true ∧ e.text = String.singleton w ∧
              locate (done ++ c :: cs') e.line e.column = some w := by
          intro ch hch hc hrec
          have hcnl : (c != '\n') = true := by rw [hc]; exact hch
          have hall : ∀ a ∈ [c], (a != '\n') = true := by
            intro a ha
            simp only [List.mem_singleton] at ha
            subst ha
            exact hcnl
          have hpos : done.length + 1 = (done ++ [c]).length := by simp
          rw [hpos] at hrec
          have hkey := ih _ _ _ _ _ (scanInv_run hinv _ hall)
            (by simp only [List.length_cons] at hlt; omega) hrec
          obtain ⟨w, hw1, hw2, hw3⟩ := hkey
          refine ⟨w, hw1, hw2, ?_⟩
          rw [List.append_assoc, List.singleton_append] at hw3
          exact hw3
        by_cases he1 : c == '='
        · simp only [he1, if_true] at h
          exact hpunct '=' (by decide) (eq_of_beq he1) (except_map_eq_error h)
        · simp only [he1, Bool.false_eq_true, if_false] at h
          by_cases he2 : c == ':'
          · simp only [he2, if_true] at h
            exact hpunct ':' (by decide) (eq_of_beq he2) (except_map_eq_error h)
          · simp only [he2, Bool.false_eq_true, if_false] at h
            by_cases he3 : c == '('
            · simp only [he3, if_true] at h
              exact hpunct '(' (by decide) (eq_of_beq he3) (except_map_eq_error h)
            · simp only [he3, Bool.false_eq_true, if_false] at h
              by_cases he4 : c == ')'
              · simp only [he4, if_true] at h
                exact hpunct ')' (by decide) (eq_of_beq he4) (except_map_eq_error h)
              · simp only [he4, Bool.false_eq_true, if_false] at h
                by_cases he5 : c == '.'
                · simp only [he5, if_true] at h
                  exact hpunct '.' (by decide) (eq_of_beq he5) (except_map_eq_error h)
                · simp only [he5, Bool.false_eq_true, if_false] at h
                  by_cases halpha : c.isAlpha
                  · -- SYMBOL run
                    simp only [halpha, if_true] at h
                    replace h := except_map_eq_error h
                    have hdec := List.takeWhile_append_dropWhile
                      (p := isSymbolContinue) (l := cs')
                    have hdeclen := congrArg List.length hdec
                    rw [List.length_append] at hdeclen
                    have hall : ∀ a ∈ c :: cs'.takeWhile isSymbolContinue,
                        (a != '\n') = true := by
                      intro a ha
                      simp only [bne_iff_ne, ne_eq]
                      intro heq
                      subst heq
                      rcases List.mem_cons.mp ha with hl | hr2
                      · rw [← hl] at halpha
                        simp at halpha
                      · have := List.mem_takeWhile_imp hr2
                        simp [isSymbolContinue] at this
                    have hpos : done.length + 1 + (cs'.takeWhile isSymbolContinue).length =
                        (done ++ c :: cs'.takeWhile isSymbolContinue).length := by
                      simp only [List.length_append, List.length_cons]
                      omega
                    rw [hpos] at h
                    have hkey := ih _ _ _ _ _ (scanInv_run hinv _ hall)
                      (by simp only [List.length_cons] at hlt; omega) h
                    obtain ⟨w, hw1, hw2, hw3⟩ := hkey
                    refine ⟨w, hw1, hw2, ?_⟩
                    rw [List.append_assoc, List.cons_append, hdec] at hw3
                    exact hw3
                  · simp only [halpha, Bool.false_eq_true, if_false] at h
                    by_cases hnl : c == '\n'
                    · -- NEWLINE
                      simp only [hnl, if_true] at h
                      have hc := eq_of_beq hnl
                      subst hc
                      have hpos : done.length + 1 = (done ++ ['\n']).length := by simp
                      have hinv2 := scanInv_nl hinv
                      rw [hpos] at hinv2 h
                      have hkey := ih _ _ _ _ _ hinv2
                        (by simp only [List.length_cons] at hlt; omega) h
                      obtain ⟨w, hw1, hw2, hw3⟩ := hkey
                      refine ⟨w, hw1, hw2, ?_⟩
                      rw [List.append_assoc, List.singleton_append] at hw3
                      exact hw3
                    · simp only [hnl, Bool.false_eq_true, if_false] at h
                      by_cases hskip : isSkipChar c
                      · -- SKIP run
                        simp only [hskip, if_true] at h
                        have hdec := List.takeWhile_append_dropWhile
                          (p := isSkipChar) (l := c :: cs')
                        have hdslen := congrArg List.length hdec
                        rw [List.length_append] at hdslen
                        have htl : 1 ≤ ((c :: cs').takeWhile isSkipChar).length := by
                          simp [List.takeWhile_cons, hskip]
                        have hall : ∀ a ∈ (c :: cs').takeWhile isSkipChar,
                            (a != '\n') = true := by
                          intro a ha
                          have := List.mem_takeWhile_imp ha
                          simp only [bne_iff_ne, ne_eq]
                          intro heq
                          subst heq
                          simp [isSkipChar] at this
                        have hpos : done.length + ((c :: cs').takeWhile isSkipChar).length =
                            (done ++ (c :: cs').takeWhile isSkipChar).length := by simp
                        rw [hpos] at h
                        have hkey := ih _ _ _ _ _ (scanInv_run hinv _ hall)
                          (by simp only [List.length_cons] at hdslen hlt; omega) h
                        obtain ⟨w, hw1, hw2, hw3⟩ := hkey
                        refine ⟨w, hw1, hw2, ?_⟩
                        rw [List.append_assoc, hdec] at hw3
                        exact hw3
                      · -- MISMATCH
                        simp only [hskip, Bool.false_eq_true, if_false, Except.error.injEq] at h
                        subst h
                        refine ⟨c, ?_, rfl, ?_⟩
                        · simp only [Bool.not_eq_true] at hdig halpha
                          simp only [mismatchChar, hdig, halpha, Bool.not_eq_true,
                            Bool.or_eq_false_iff]
                          simp only [Bool.not_eq_true'] at hskip
                          simp [hskip, he1, he2, he3, he4, he5, hnl]
                        · obtain ⟨hi1, hi2, hi3⟩ := hinv
                          have hafter := hi3 (c :: cs')
                          have hcnl : (c != '\n') = true := by
                            simpa using hnl
                          simp only [locate, lineChars, hafter, Option.map_some',
                            Option.some_bind]
                          rw [takeWhile_append_all _ hi2]
                          simp only [List.takeWhile_cons, hcnl, if_true]
                          have hlendrop : (done.drop lineStart).length =
                              done.length - lineStart := List.length_drop _ _
                          rw [← hlendrop, List.get?_eq_getElem?,
                            List.getElem?_append_right (Nat.le_refl _)]
                          simp


theorem strongMismatch_not_digit {a : Char} (h : a.isDigit = true) :
    strongMismatchChar a = false := by
  simp [strongMismatchChar, mismatchChar, h]

theorem strongMismatch_not_alpha {a : Char} (h : a.isAlpha = true) :
    strongMismatchChar a = false := by
  simp [strongMismatchChar, mismatchChar, h]

theorem strongMismatch_not_skip {a : Char} (h : isSkipChar a = true) :
    strongMismatchChar a = false := by
  simp [strongMismatchChar, mismatchChar, h]

theorem strongMismatch_not_symbolContinue {a : Char} (h : isSymbolContinue a = true) :
    strongMismatchChar a = false := by
  simp only [isSymbolContinue, Bool.or_eq_true] at h
  rcases h with (h | h) | h
  · exact strongMismatch_not_alpha h
  · exact strongMismatch_not_digit h
  · have : a = '_' := by simpa using h
    subst this
    decide

theorem tokenizeAux_reaches_error :
    ∀ (fuel : Nat) (cs : List Char) (pos lineno lineStart : Nat),
    (∃ c ∈ cs, strongMismatchChar c = true) →
    cs.length < fuel →
    ∃ e, tokenizeAux fuel cs pos lineno lineStart = .error e := by
  intro fuel
  induction fuel with
  | zero =>
    intro cs pos lineno lineStart _ hlt
    omega
  | succ fuel ih =>
    intro cs pos lineno lineStart hex hlt
    obtain ⟨w, hwmem, hws⟩ := hex
    cases cs with
    | nil => simp at hwmem
    | cons c cs' =>
      simp only [tokenizeAux]
      by_cases hdig : c.isDigit
      · simp only [hdig, if_true]
        by_cases hdot : ((c :: cs').dropWhile Char.isDigit).head? == some '.'
        · simp only [hdot, if_true]
          have hr1 : (c :: cs').dropWhile Char.isDigit =
              '.' :: ((c :: cs').dropWhile Char.isDigit).tail := by
            cases hr : (c :: cs').dropWhile Char.isDigit with
            | nil => rw [hr] at hdot; simp at hdot
            | cons d t =>
              rw [hr] at hdot
              simp only [List.head?_cons, beq_iff_eq, Option.some.injEq] at hdot
              subst hdot
              simp
          have hdec := List.takeWhile_append_dropWhile (p := Char.isDigit) (l := c :: cs')
          have hdec2 := List.takeWhile_append_dropWhile (p := Char.isDigit)
            (l := ((c :: cs').dropWhile Char.isDigit).tail)
          have hfull : c :: cs' =
              ((c :: cs').takeWhile Char.isDigit ++ '.' ::
                (((c :: cs').dropWhile Char.isDigit).tail.takeWhile Char.isDigit)) ++
              (((c :: cs').dropWhile Char.isDigit).tail.dropWhile Char.isDigit) := by
            conv_lhs => rw [← hdec, hr1]
            rw [← hdec2]
            simp
          have hwrest : w ∈ ((c :: cs').dropWhile Char.isDigit).tail.dropWhile Char.isDigit := by
            rw [hfull] at hwmem
            rcases List.mem_append.mp hwmem with hl | hr
            · rcases List.mem_append.mp hl with hll | hlr
              · rw [strongMismatch_not_digit (List.mem_takeWhile_imp hll)] at hws
                exact absurd hws (by simp)
              · rcases List.mem_cons.mp hlr with hc | hc
                · subst hc
                  simp [strongMismatchChar, mismatchChar] at hws
                · rw [strongMismatch_not_digit (List.mem_takeWhile_imp hc)] at hws
                  exact absurd hws (by simp)
            · exact hr
          have hlenfull := congrArg List.length hfull
          simp only [List.length_cons, List.length_append] at hlenfull hlt
          obtain ⟨e, he⟩ := ih _ (pos + ((c :: cs').takeWhile Char.isDigit).length + 1 +
              (((c :: cs').dropWhile Char.isDigit).tail.takeWhile Char.isDigit).length)
              lineno lineStart ⟨w, hwrest, hws⟩ (by omega)
          exact ⟨e, by rw [he]; rfl⟩
        · simp only [hdot, Bool.false_eq_true, if_false]
          have hdec := List.takeWhile_append_dropWhile (p := Char.isDigit) (l := c :: cs')
          have hdslen := congrArg List.length hdec
          rw [List.length_append] at hdslen
          have htl : 1 ≤ ((c :: cs').takeWhile Char.isDigit).length := by
            simp [List.takeWhile_cons, hdig]
          have hwrest : w ∈ (c :: cs').dropWhile Char.isDigit := by
            rw [← hdec] at hwmem
            rcases List.mem_append.mp hwmem with hl | hr
            · rw [strongMismatch_not_digit (List.mem_takeWhile_imp hl)] at hws
              exact absurd hws (by simp)
            · exact hr
          obtain ⟨e, he⟩ := ih _ (pos + ((c :: cs').takeWhile Char.isDigit).length)
              lineno lineStart ⟨w, hwrest, hws⟩
              (by simp only [List.length_cons] at hdslen hlt; omega)
          exact ⟨e, by rw [he]; rfl⟩
      · simp only [hdig, Bool.false_eq_true, if_false]
        have hwtail : strongMismatchChar c = false → w ∈ cs' := by
          intro hcf
          rcases List.mem_cons.mp hwmem with hc | hc
          · rw [hc, hcf] at hws
            exact absurd hws (by simp)
          · exact hc
        have hbound : cs'.length < fuel := by
          simp only [List.length_cons] at hlt
          omega
        by_cases he1 : c == '='
        · simp only [he1, if_true]
          obtain ⟨e, he⟩ := ih _ (pos + 1) lineno lineStart
            ⟨w, hwtail (by rw [eq_of_beq he1]; decide), hws⟩ hbound
          exact ⟨e, by rw [he]; rfl⟩
        · simp only [he1, Bool.false_eq_true, if_false]
          by_cases he2 : c == ':'
          · simp only [he2, if_true]
            obtain ⟨e, he⟩ := ih _ (pos + 1) lineno lineStart
              ⟨w, hwtail (by rw [eq_of_beq he2]; decide), hws⟩ hbound
            exact ⟨e, by rw [he]; rfl⟩
          · simp only [he2, Bool.false_eq_true, if_false]
            by_cases he3 : c == '('
            · simp only [he3, if_true]
              obtain ⟨e, he⟩ := ih _ (pos + 1) lineno lineStart
                ⟨w, hwtail (by rw [eq_of_beq he3]; decide), hws⟩ hbound
              exact ⟨e, by rw [he]; rfl⟩
            · simp only [he3, Bool.false_eq_true, if_false]
              by_cases he4 : c == ')'
              · simp only [he4, if_true]
                obtain ⟨e, he⟩ := ih _ (pos + 1) lineno lineStart
                  ⟨w, hwtail (by rw [eq_of_beq he4]; decide), hws⟩ hbound
                exact ⟨e, by rw [he]; rfl⟩
              · simp only [he4, Bool.false_eq_true, if_false]
                by_cases he5 : c == '.'
                · simp only [he5, if_true]
                  obtain ⟨e, he⟩ := ih _ (pos + 1) lineno lineStart
                    ⟨w, hwtail (by rw [eq_of_beq he5]; decide), hws⟩ hbound
                  exact ⟨e, by rw [he]; rfl⟩
                · simp only [he5, Bool.false_eq_true, if_false]
                  by_cases halpha : c.isAlpha
                  · simp only [halpha, if_true]
                    have hdec := List.takeWhile_append_dropWhile
                      (p := isSymbolContinue) (l := cs')
                    have hdeclen := congrArg List.length hdec
                    rw [List.length_append] at hdeclen
                    have hwrest : w ∈ cs'.dropWhile isSymbolContinue := by
                      rcases List.mem_cons.mp hwmem with hc | hc
                      · rw [hc, strongMismatch_not_alpha halpha] at hws
                        exact absurd hws (by simp)
                      · rw [← hdec] at hc
                        rcases List.mem_append.mp hc with hl | hr
                        · rw [strongMismatch_not_symbolContinue
                            (List.mem_takeWhile_imp hl)] at hws
                          exact absurd hws (by simp)
                        · exact hr
                    obtain ⟨e, he⟩ := ih _ (pos + 1 + (cs'.takeWhile isSymbolContinue).length)
                      lineno lineStart ⟨w, hwrest, hws⟩
                      (by simp only [List.length_cons] at hlt; omega)
                    exact ⟨e, by rw [he]; rfl⟩
                  · simp only [halpha, Bool.false_eq_true, if_false]
                    by_cases hnl : c == '\n'
                    · simp only [hnl, if_true]
                      exact ih _ (pos + 1) (lineno + 1) (pos + 1)
                        ⟨w, hwtail (by rw [eq_of_beq hnl]; decide), hws⟩ hbound
                    · simp only [hnl, Bool.false_eq_true, if_false]
                      by_cases hskip : isSkipChar c
                      · simp only [hskip, if_true]
                        have hdec := List.takeWhile_append_dropWhile
                          (p := isSkipChar) (l := c :: cs')
                        have hdslen := congrArg List.length hdec
                        rw [List.length_append] at hdslen
                        have htl : 1 ≤ ((c :: cs').takeWhile isSkipChar).length := by
                          simp [List.takeWhile_cons, hskip]
                        have hwrest : w ∈ (c :: cs').dropWhile isSkipChar := by
                          rw [← hdec] at hwmem
                          rcases List.mem_append.mp hwmem with hl | hr
                          · rw [strongMismatch_not_skip
                              (List.mem_takeWhile_imp hl)] at hws
                            exact absurd hws (by simp)
                          · exact hr
                        exact ih _ (pos + ((c :: cs').takeWhile isSkipChar).length)
                          lineno lineStart ⟨w, hwrest, hws⟩
                          (by simp only [List.length_cons] at hdslen hlt; omega)
                      · simp only [hskip, Bool.false_eq_true, if_false]
                        exact ⟨_, rfl⟩


/-- C10 (amended): an input containing a character matched by none of the
patterns of the tokenizer fails to tokenize, and the error payload
carries the offending text, its 1-based line and its 0-based column (the
source computes `mo.start() - line_start`, which is 0 for the first
character of a line, so the column is 0-based, not 1-based as the claim
states). -/
theorem tokenize_bad_char_rejected (s : String)
    (hex : ∃ c ∈ s.data, strongMismatchChar c = true) :
    ∃ e c, tokenize s = .error e ∧ mismatchChar c = true ∧
      e.text = String.singleton c ∧ locate s.data e.line e.column = some c := by
  obtain ⟨e, he⟩ := tokenizeAux_reaches_error (s.data.length + 1) s.data 0 1 0 hex
    (by omega)
  have hloc := tokenizeAux_error_locates (s.data.length + 1) s.data [] 1 0 e
    scanInv_init (by simp) he
  obtain ⟨c, hc1, hc2, hc3⟩ := hloc
  rw [List.nil_append] at hc3
  exact ⟨e, c, he, hc1, hc2, hc3⟩


/-! ## Parser lemmas: every successful parse ends on a DOT token

Each grammar production for a clause (and for the proof header) ends by
consuming a DOT token, and the clause loop of `match_proof` consumes the
whole token list; so the last token of any token list that parses
successfully has type DOT.  Consequently a token stream whose final token
is not a DOT — such as one ending in a NUMBER that absorbed the final
period of the text — can never parse. -/


/-- Destructuring a successful `Except` bind. -/
theorem bind_eq_ok {ε α β : Type} {e : Except ε α} {f : α → Except ε β} {b : β}
    (h : e >>= f = .ok b) : ∃ a, e = .ok a ∧ f a = .ok b := by
  cases e with
  | error err => simp [Bind.bind, Except.bind] at h
  | ok a => exact ⟨a, rfl, by simpa [Bind.bind, Except.bind] using h⟩

/-- A successful `check_token_and_pop` pops exactly the head token, which
has the expected type. -/
theorem pop_ok {ts : List Token} {ty : String} {t : Token} {rest : List Token}
    (h : check_token_and_pop ts ty = .ok (t, rest)) :
    ts = t :: rest ∧ t.type = ty := by
  cases ts with
  | nil => simp [check_token_and_pop] at h
  | cons a as =>
    simp only [check_token_and_pop] at h
    by_cases hty : a.type == ty
    · simp only [hty, if_true, Except.ok.injEq, Prod.mk.injEq] at h
      obtain ⟨h1, h2⟩ := h
      subst h1
      subst h2
      exact ⟨rfl, by simpa using hty⟩
    · simp [hty] at h

/-- A positive `check_token` exposes the head token. -/
theorem check_token_true {ts : List Token} {ty : String}
    (h : check_token ts ty = true) :
    ∃ t ts2, ts = t :: ts2 ∧ t.type = ty := by
  cases ts with
  | nil => simp [check_token] at h
  | cons t ts2 =>
    refine ⟨t, ts2, rfl, ?_⟩
    simpa [check_token] using h

theorem take_symbol_tokens_eq : ∀ (ts syms rest : List Token),
    take_symbol_tokens ts = (syms, rest) → ts = syms ++ rest := by
  intro ts
  induction ts with
  | nil =>
    intro syms rest h
    simp only [take_symbol_tokens, Prod.mk.injEq] at h
    obtain ⟨h1, h2⟩ := h
    subst h1
    subst h2
    rfl
  | cons t ts ih =>
    intro syms rest h
    simp only [take_symbol_tokens] at h
    by_cases hty : t.type == "SYMBOL"
    · rcases htk : take_symbol_tokens ts with ⟨s, r⟩
      rw [htk] at h
      simp only [hty, if_true, Prod.mk.injEq] at h
      obtain ⟨h1, h2⟩ := h
      subst h1
      subst h2
      have := ih s r htk
      simp [this]
    · simp only [hty, Bool.false_eq_true, if_false, Prod.mk.injEq] at h
      obtain ⟨h1, h2⟩ := h
      subst h1
      subst h2
      rfl

theorem match_compound_symbol_suffix {ts : List Token} {n : Node} {rest : List Token}
    (h : match_compound_symbol ts = .ok (n, rest)) : ∃ pre, ts = pre ++ rest := by
  unfold match_compound_symbol at h
  obtain ⟨⟨first, r1⟩, h1, h2⟩ := bind_eq_ok h
  obtain ⟨hts, _⟩ := pop_ok h1
  dsimp only at h2
  rcases htk : take_symbol_tokens r1 with ⟨more, r2⟩
  rw [htk] at h2
  simp only [Except.ok.injEq, Prod.mk.injEq] at h2
  obtain ⟨_, h2r⟩ := h2
  subst h2r
  exact ⟨first :: more, by rw [hts, take_symbol_tokens_eq r1 more r2 htk]; rfl⟩

theorem match_justification_suffix {ts : List Token} {t : Token} {rest : List Token}
    (h : match_justification ts = .ok (t, rest)) : ∃ pre, ts = pre ++ rest := by
  cases ts with
  | nil =>
    simp only [match_justification] at h
    obtain ⟨hts, _⟩ := pop_ok h
    simp at hts
  | cons a as =>
    simp only [match_justification] at h
    by_cases hdef : a.type == "DEFINITION"
    · simp only [hdef, if_true, Except.ok.injEq, Prod.mk.injEq] at h
      obtain ⟨_, h2⟩ := h
      subst h2
      exact ⟨[a], rfl⟩
    · simp only [hdef, Bool.false_eq_true, if_false] at h
      obtain ⟨hts, _⟩ := pop_ok h
      exact ⟨[t], by rw [hts]; rfl⟩

theorem match_where_clause_suffix {ts : List Token} {n : Node} {rest : List Token}
    (h : match_where_clause ts = .ok (n, rest)) : ∃ pre, ts = pre ++ rest := by
  unfold match_where_clause at h
  obtain ⟨⟨w, r1⟩, h1, h⟩ := bind_eq_ok h
  obtain ⟨⟨sym, r2⟩, h2, h⟩ := bind_eq_ok h
  obtain ⟨⟨b, r3⟩, h3, h⟩ := bind_eq_ok h
  obtain ⟨⟨a4, r4⟩, h4, h⟩ := bind_eq_ok h
  obtain ⟨⟨cs, r5⟩, h5, h⟩ := bind_eq_ok h
  simp only [Except.ok.injEq, Prod.mk.injEq] at h
  obtain ⟨_, hr⟩ := h
  subst hr
  obtain ⟨e1, _⟩ := pop_ok h1
  obtain ⟨e2, _⟩ := pop_ok h2
  obtain ⟨e3, _⟩ := pop_ok h3
  obtain ⟨e4, _⟩ := pop_ok h4
  obtain ⟨p5, e5⟩ := match_compound_symbol_suffix h5
  refine ⟨w :: sym :: b :: a4 :: p5, ?_⟩
  rw [e1, e2, e3, e4, e5]
  rfl



/-- Every successful `match_term` / `match_formula` returns a suffix of
its input token list. -/
theorem match_term_formula_suffix :
    ∀ fuel : Nat,
      (∀ ts x rest, match_term fuel ts = .ok (x, rest) → ∃ pre, ts = pre ++ rest) ∧
      (∀ ts x rest, match_formula fuel ts = .ok (x, rest) → ∃ pre, ts = pre ++ rest) := by
  intro fuel
  induction fuel with
  | zero =>
    constructor <;> (intro ts x rest h; simp [match_term, match_formula] at h)
  | succ fuel ih =>
    obtain ⟨iht, ihf⟩ := ih
    constructor
    · intro ts x rest h
      cases ts with
      | nil => simp [match_term] at h
      | cons t ts2 =>
        simp only [match_term] at h
        by_cases h1 : t.type == "SYMBOL"
        · simp only [h1, if_true, Except.ok.injEq, Prod.mk.injEq] at h
          obtain ⟨_, h2⟩ := h
          subst h2
          exact ⟨[t], rfl⟩
        · simp only [h1, Bool.false_eq_true, if_false] at h
          by_cases h2 : t.type == "NUMBER"
          · simp only [h2, if_true] at h
            cases ts2 with
            | nil =>
              simp only [Except.ok.injEq, Prod.mk.injEq] at h
              obtain ⟨_, hr⟩ := h
              subst hr
              exact ⟨[t], rfl⟩
            | cons t2 ts3 =>
              by_cases h3 : t2.type == "SYMBOL"
              · simp only [h3, if_true, Except.ok.injEq, Prod.mk.injEq] at h
                obtain ⟨_, hr⟩ := h
                subst hr
                exact ⟨[t, t2], rfl⟩
              · simp only [h3, Bool.false_eq_true, if_false] at h
                by_cases h4 : t2.type == "LPAREN"
                · simp only [h4, if_true] at h
                  obtain ⟨⟨right, r1⟩, hm, h⟩ := bind_eq_ok h
                  dsimp only at h
                  obtain ⟨⟨rp, r2⟩, hp, h⟩ := bind_eq_ok h
                  dsimp only at h
                  simp only [Except.ok.injEq, Prod.mk.injEq] at h
                  obtain ⟨_, hr⟩ := h
                  subst hr
                  obtain ⟨p1, e1⟩ := iht _ _ _ hm
                  obtain ⟨e2, _⟩ := pop_ok hp
                  refine ⟨t :: t2 :: p1 ++ [rp], ?_⟩
                  rw [e1, e2]
                  simp
                · simp only [h4, Bool.false_eq_true, if_false,
                    Except.ok.injEq, Prod.mk.injEq] at h
                  obtain ⟨_, hr⟩ := h
                  subst hr
                  exact ⟨[t], rfl⟩
          · simp only [h2, Bool.false_eq_true, if_false] at h
            obtain ⟨⟨lp, r1⟩, hl, h⟩ := bind_eq_ok h
            dsimp only at h
            obtain ⟨⟨tm, r2⟩, hm, h⟩ := bind_eq_ok h
            dsimp only at h
            obtain ⟨⟨rp, r3⟩, hp, h⟩ := bind_eq_ok h
            dsimp only at h
            simp only [Except.ok.injEq, Prod.mk.injEq] at h
            obtain ⟨_, hr⟩ := h
            subst hr
            obtain ⟨el, _⟩ := pop_ok hl
            obtain ⟨p2, e2⟩ := iht _ _ _ hm
            obtain ⟨ep, _⟩ := pop_ok hp
            refine ⟨lp :: p2 ++ [rp], ?_⟩
            rw [el, e2, ep]
            simp
    · intro ts x rest h
      simp only [match_formula] at h
      by_cases hif : check_token ts "IF"
      · simp only [hif, if_true] at h
        obtain ⟨⟨hyp, r1⟩, hm1, h⟩ := bind_eq_ok h
        dsimp only at h
        obtain ⟨⟨thn, r2⟩, hp, h⟩ := bind_eq_ok h
        dsimp only at h
        obtain ⟨⟨con, r3⟩, hm2, h⟩ := bind_eq_ok h
        dsimp only at h
        simp only [Except.ok.injEq, Prod.mk.injEq] at h
        obtain ⟨_, hr⟩ := h
        subst hr
        obtain ⟨tIf, tsIf, hts, _⟩ := check_token_true hif
        subst hts
        simp only [List.tail_cons] at hm1
        obtain ⟨p1, e1⟩ := ihf _ _ _ hm1
        obtain ⟨ep, _⟩ := pop_ok hp
        obtain ⟨p2, e2⟩ := ihf _ _ _ hm2
        refine ⟨tIf :: p1 ++ thn :: p2, ?_⟩
        rw [e1, ep, e2]
        simp
      · simp only [hif, Bool.false_eq_true, if_false] at h
        obtain ⟨⟨term, r1⟩, hm1, h⟩ := bind_eq_ok h
        dsimp only at h
        obtain ⟨p1, e1⟩ := iht _ _ _ hm1
        by_cases heq : check_token r1 "EQ"
        · simp only [heq, if_true] at h
          obtain ⟨⟨right, r2⟩, hm2, h⟩ := bind_eq_ok h
          dsimp only at h
          simp only [Except.ok.injEq, Prod.mk.injEq] at h
          obtain ⟨_, hr⟩ := h
          subst hr
          obtain ⟨tEq, tsEq, hr1, _⟩ := check_token_true heq
          subst hr1
          simp only [List.tail_cons] at hm2
          obtain ⟨p2, e2⟩ := iht _ _ _ hm2
          refine ⟨p1 ++ tEq :: p2, ?_⟩
          rw [e1, e2]
          simp
        · simp only [heq, Bool.false_eq_true, if_false] at h
          obtain ⟨⟨b, r2⟩, hb, h⟩ := bind_eq_ok h
          dsimp only at h
          obtain ⟨⟨a4, r3⟩, ha, h⟩ := bind_eq_ok h
          dsimp only at h
          obtain ⟨⟨cs, r4⟩, hc, h⟩ := bind_eq_ok h
          dsimp only at h
          simp only [Except.ok.injEq, Prod.mk.injEq] at h
          obtain ⟨_, hr⟩ := h
          subst hr
          obtain ⟨eb, _⟩ := pop_ok hb
          obtain ⟨ea, _⟩ := pop_ok ha
          obtain ⟨p4, ec⟩ := match_compound_symbol_suffix hc
          refine ⟨p1 ++ b :: a4 :: p4, ?_⟩
          rw [e1, eb, ea, ec]
          simp



/-- Every successful `match_let_clause` ends by consuming a DOT token. -/
theorem match_let_clause_dot {fuel : Nat} {ts : List Token} {c : Node}
    {rest : List Token} (h : match_let_clause fuel ts = .ok (c, rest)) :
    ∃ pre d, ts = pre ++ d :: rest ∧ d.type = "DOT" := by
  unfold match_let_clause at h
  obtain ⟨⟨l, r1⟩, hl, h⟩ := bind_eq_ok h
  dsimp only at h
  obtain ⟨⟨sym, r2⟩, hs, h⟩ := bind_eq_ok h
  dsimp only at h
  obtain ⟨el, _⟩ := pop_ok hl
  obtain ⟨es, _⟩ := pop_ok hs
  by_cases heq : check_token r2 "EQ"
  · simp only [heq, if_true] at h
    obtain ⟨⟨tm, r3⟩, hm, h⟩ := bind_eq_ok h
    dsimp only at h
    obtain ⟨⟨d, r4⟩, hd, h⟩ := bind_eq_ok h
    dsimp only at h
    simp only [Except.ok.injEq, Prod.mk.injEq] at h
    obtain ⟨_, hr⟩ := h
    subst hr
    obtain ⟨tEq, tsEq, hr2, _⟩ := check_token_true heq
    subst hr2
    simp only [List.tail_cons] at hm
    obtain ⟨p3, e3⟩ := (match_term_formula_suffix fuel).1 _ _ _ hm
    obtain ⟨ed, hdty⟩ := pop_ok hd
    refine ⟨l :: sym :: tEq :: p3, d, ?_, hdty⟩
    rw [el, es, e3, ed]
    simp
  · simp only [heq, Bool.false_eq_true, if_false] at h
    obtain ⟨⟨b, r3⟩, hb, h⟩ := bind_eq_ok h
    dsimp only at h
    obtain ⟨⟨a4, r4⟩, ha, h⟩ := bind_eq_ok h
    dsimp only at h
    obtain ⟨⟨cs, r5⟩, hc, h⟩ := bind_eq_ok h
    dsimp only at h
    obtain ⟨⟨d, r6⟩, hd, h⟩ := bind_eq_ok h
    dsimp only at h
    simp only [Except.ok.injEq, Prod.mk.injEq] at h
    obtain ⟨_, hr⟩ := h
    subst hr
    obtain ⟨eb, _⟩ := pop_ok hb
    obtain ⟨ea, _⟩ := pop_ok ha
    obtain ⟨p5, ec⟩ := match_compound_symbol_suffix hc
    obtain ⟨ed, hdty⟩ := pop_ok hd
    refine ⟨l :: sym :: b :: a4 :: p5, d, ?_, hdty⟩
    rw [el, es, eb, ea, ec, ed]
    simp

/-- Every successful `match_therefore_clause` ends by consuming a DOT. -/
theorem match_therefore_clause_dot {fuel : Nat} {ts : List Token} {c : Node}
    {rest : List Token} (h : match_therefore_clause fuel ts = .ok (c, rest)) :
    ∃ pre d, ts = pre ++ d :: rest ∧ d.type = "DOT" := by
  unfold match_therefore_clause at h
  obtain ⟨⟨th, r1⟩, hth, h⟩ := bind_eq_ok h
  dsimp only at h
  obtain ⟨⟨f, r2⟩, hf, h⟩ := bind_eq_ok h
  dsimp only at h
  obtain ⟨⟨d, r3⟩, hd, h⟩ := bind_eq_ok h
  dsimp only at h
  simp only [Except.ok.injEq, Prod.mk.injEq] at h
  obtain ⟨_, hr⟩ := h
  subst hr
  obtain ⟨eth, _⟩ := pop_ok hth
  obtain ⟨p2, ef⟩ := (match_term_formula_suffix fuel).2 _ _ _ hf
  obtain ⟨ed, hdty⟩ := pop_ok hd
  refine ⟨th :: p2, d, ?_, hdty⟩
  rw [eth, ef, ed]
  simp

/-- Reducing a bind of an immediate `Except.ok`. -/
theorem except_ok_bind {ε α β : Type} (a : α) (f : α → Except ε β) :
    ((Except.ok a : Except ε α) >>= f) = f a := rfl

/-- Every successful `match_formula_clause` ends by consuming a DOT. -/
theorem match_formula_clause_dot {fuel : Nat} {ts : List Token} {c : Node}
    {rest : List Token} (h : match_formula_clause fuel ts = .ok (c, rest)) :
    ∃ pre d, ts = pre ++ d :: rest ∧ d.type = "DOT" := by
  unfold match_formula_clause at h
  by_cases hby : check_token ts "BY"
  · simp only [hby, if_true] at h
    obtain ⟨⟨j0, r0⟩, hju, h⟩ := bind_eq_ok h
    dsimp only at h
    rw [except_ok_bind] at h
    dsimp only at h
    obtain ⟨⟨f, r2⟩, hf, h⟩ := bind_eq_ok h
    dsimp only at h
    by_cases hwh : check_token r2 "WHERE"
    · simp only [hwh, if_true] at h
      obtain ⟨⟨w0, rw0⟩, hwu, h⟩ := bind_eq_ok h
      dsimp only at h
      rw [except_ok_bind] at h
      dsimp only at h
      obtain ⟨⟨d, r4⟩, hd, h⟩ := bind_eq_ok h
      dsimp only at h
      simp only [Except.ok.injEq, Prod.mk.injEq] at h
      obtain ⟨_, hr⟩ := h
      subst hr
      obtain ⟨tBy, tsBy, htsb, _⟩ := check_token_true hby
      subst htsb
      simp only [List.tail_cons] at hju
      obtain ⟨p0, e0⟩ := match_justification_suffix hju
      obtain ⟨p2, ef⟩ := (match_term_formula_suffix fuel).2 _ _ _ hf
      obtain ⟨pw, ew⟩ := match_where_clause_suffix hwu
      obtain ⟨ed, hdty⟩ := pop_ok hd
      refine ⟨tBy :: p0 ++ p2 ++ pw, d, ?_, hdty⟩
      rw [e0, ef, ew, ed]
      simp
    · simp only [hwh, Bool.false_eq_true, if_false] at h
      rw [except_ok_bind] at h
      dsimp only at h
      obtain ⟨⟨d, r4⟩, hd, h⟩ := bind_eq_ok h
      dsimp only at h
      simp only [Except.ok.injEq, Prod.mk.injEq] at h
      obtain ⟨_, hr⟩ := h
      subst hr
      obtain ⟨tBy, tsBy, htsb, _⟩ := check_token_true hby
      subst htsb
      simp only [List.tail_cons] at hju
      obtain ⟨p0, e0⟩ := match_justification_suffix hju
      obtain ⟨p2, ef⟩ := (match_term_formula_suffix fuel).2 _ _ _ hf
      obtain ⟨ed, hdty⟩ := pop_ok hd
      refine ⟨tBy :: p0 ++ p2, d, ?_, hdty⟩
      rw [e0, ef, ed]
      simp
  · simp only [hby, Bool.false_eq_true, if_false] at h
    rw [except_ok_bind] at h
    dsimp only at h
    obtain ⟨⟨f, r2⟩, hf, h⟩ := bind_eq_ok h
    dsimp only at h
    by_cases hwh : check_token r2 "WHERE"
    · simp only [hwh, if_true] at h
      obtain ⟨⟨w0, rw0⟩, hwu, h⟩ := bind_eq_ok h
      dsimp only at h
      rw [except_ok_bind] at h
      dsimp only at h
      obtain ⟨⟨d, r4⟩, hd, h⟩ := bind_eq_ok h
      dsimp only at h
      simp only [Except.ok.injEq, Prod.mk.injEq] at h
      obtain ⟨_, hr⟩ := h
      subst hr
      obtain ⟨p2, ef⟩ := (match_term_formula_suffix fuel).2 _ _ _ hf
      obtain ⟨pw, ew⟩ := match_where_clause_suffix hwu
      obtain ⟨ed, hdty⟩ := pop_ok hd
      refine ⟨p2 ++ pw, d, ?_, hdty⟩
      rw [ef, ew, ed]
      simp
    · simp only [hwh, Bool.false_eq_true, if_false] at h
      rw [except_ok_bind] at h
      dsimp only at h
      obtain ⟨⟨d, r4⟩, hd, h⟩ := bind_eq_ok h
      dsimp only at h
      simp only [Except.ok.injEq, Prod.mk.injEq] at h
      obtain ⟨_, hr⟩ := h
      subst hr
      obtain ⟨p2, ef⟩ := (match_term_formula_suffix fuel).2 _ _ _ hf
      obtain ⟨ed, hdty⟩ := pop_ok hd
      refine ⟨p2, d, ?_, hdty⟩
      rw [ef, ed]

/-- Every successful `match_clause` ends by consuming a DOT. -/
theorem match_clause_dot {fuel : Nat} {ts : List Token} {c : Node}
    {rest : List Token} (h : match_clause fuel ts = .ok (c, rest)) :
    ∃ pre d, ts = pre ++ d :: rest ∧ d.type = "DOT" := by
  unfold match_clause at h
  by_cases h1 : check_token ts "LET"
  · simp only [h1, if_true] at h
    exact match_let_clause_dot h
  · simp only [h1, Bool.false_eq_true, if_false] at h
    by_cases h2 : check_token ts "THEREFORE"
    · simp only [h2, if_true] at h
      exact match_therefore_clause_dot h
    · simp only [h2, Bool.false_eq_true, if_false] at h
      exact match_formula_clause_dot h



/-- In two decompositions of one list that both end in a single final
element, the final elements agree. -/
theorem last_elem_eq {p q : List Token} {d l : Token}
    (h : p ++ [d] = q ++ [l]) : d = l := by
  have h1 := congrArg List.getLast? h
  rw [List.getLast?_concat, List.getLast?_concat] at h1
  exact Option.some.inj h1

/-- The clause loop of `match_proof` only succeeds when the last token of
a nonempty token list is a DOT. -/
theorem match_clauses_last_dot :
    ∀ (fuel : Nat) (ts : List Token) (cs : List Node) (pre : List Token)
      (last : Token),
    match_clauses fuel ts = .ok cs → ts = pre ++ [last] → last.type = "DOT" := by
  intro fuel
  induction fuel with
  | zero =>
    intro ts cs pre last h hts
    subst hts
    cases pre <;> simp [match_clauses] at h
  | succ fuel ih =>
    intro ts cs pre last h hts
    subst hts
    cases hp : pre ++ [last] with
    | nil => simp at hp
    | cons t ts2 =>
      rw [hp] at h
      simp only [match_clauses] at h
      obtain ⟨⟨c, rest⟩, hc, h⟩ := bind_eq_ok h
      dsimp only at h
      obtain ⟨cs2, hcs, _⟩ := bind_eq_ok h
      obtain ⟨p, d, hdec, hdty⟩ := match_clause_dot hc
      rcases List.eq_nil_or_concat rest with hrn | ⟨q, lr, hrq⟩
      · subst hrn
        have : p ++ [d] = pre ++ [last] := by rw [← hdec, hp]
        rw [last_elem_eq this] at hdty
        exact hdty
      · rw [List.concat_eq_append] at hrq
        subst hrq
        have hassoc : t :: ts2 = (p ++ d :: q) ++ [lr] := by
          rw [hdec]
          simp
        have hlast : (p ++ d :: q) ++ [lr] = pre ++ [last] := by
          rw [← hassoc]
          exact hp.symm
        rw [← last_elem_eq hlast]
        exact ih (q ++ [lr]) cs2 q lr hcs rfl



/-- Every successful `match_proof_statement` ends by consuming a DOT. -/
theorem match_proof_statement_dot {fuel : Nat} {ts : List Token} {stmt : Node}
    {rest : List Token} (h : match_proof_statement fuel ts = .ok (stmt, rest)) :
    ∃ pre d, ts = pre ++ d :: rest ∧ d.type = "DOT" := by
  unfold match_proof_statement at h
  obtain ⟨⟨pv, r1⟩, hpv, h⟩ := bind_eq_ok h
  dsimp only at h
  obtain ⟨⟨co, r2⟩, hco, h⟩ := bind_eq_ok h
  dsimp only at h
  obtain ⟨⟨f, r3⟩, hf, h⟩ := bind_eq_ok h
  dsimp only at h
  obtain ⟨⟨d, r4⟩, hd, h⟩ := bind_eq_ok h
  dsimp only at h
  simp only [Except.ok.injEq, Prod.mk.injEq] at h
  obtain ⟨_, hr⟩ := h
  subst hr
  obtain ⟨e1, _⟩ := pop_ok hpv
  obtain ⟨e2, _⟩ := pop_ok hco
  obtain ⟨p3, e3⟩ := (match_term_formula_suffix fuel).2 _ _ _ hf
  obtain ⟨ed, hdty⟩ := pop_ok hd
  refine ⟨pv :: co :: p3, d, ?_, hdty⟩
  rw [e1, e2, e3, ed]
  simp

/-- Every successful `match_proof` consumes a DOT token last: the last
token of the token list of a parsed proof has type DOT. -/
theorem match_proof_last_dot {fuel : Nat} {ts : List Token} {ast : ProofNode}
    {pre : List Token} {last : Token}
    (h : match_proof fuel ts = .ok ast) (hts : ts = pre ++ [last]) :
    last.type = "DOT" := by
  unfold match_proof at h
  obtain ⟨⟨stmt, rest⟩, hst, h⟩ := bind_eq_ok h
  dsimp only at h
  obtain ⟨cs, hcs, _⟩ := bind_eq_ok h
  obtain ⟨p, d, hdec, hdty⟩ := match_proof_statement_dot hst
  rcases List.eq_nil_or_concat rest with hrn | ⟨q, lr, hrq⟩
  · subst hrn
    have : p ++ [d] = pre ++ [last] := by rw [← hdec, hts]
    rw [last_elem_eq this] at hdty
    exact hdty
  · rw [List.concat_eq_append] at hrq
    subst hrq
    have hassoc : ts = (p ++ d :: q) ++ [lr] := by
      rw [hdec]
      simp
    have hlast : (p ++ d :: q) ++ [lr] = pre ++ [last] := by
      rw [← hassoc]
      exact hts
    rw [← last_elem_eq hlast]
    exact match_clauses_last_dot fuel (q ++ [lr]) cs q lr hcs rfl

/-- A tokenized input whose final token is not a DOT can never parse: the
`parse` of such a code is always a `SyntaxError`. -/
theorem parse_requires_final_dot {code : String} {ts pre : List Token}
    {last : Token} (htok : tokenize code = .ok ts) (hts : ts = pre ++ [last])
    (hdot : last.type ≠ "DOT") : ∃ e, parse code = .error e := by
  unfold parse
  rw [htok]
  show ∃ e, match_proof (ts.length + 1) ts = .error e
  cases hmp : match_proof (ts.length + 1) ts with
  | error e => exact ⟨e, rfl⟩
  | ok ast => exact absurd (match_proof_last_dot hmp hts) hdot


/-! ## Concrete inputs and AST constants used by the claim theorems -/

/-- A SYMBOL token (abbreviation for statements below). -/
def symTok (s : String) (ln col : Nat) : Token :=
  ⟨"SYMBOL", .str s, ln, col⟩

/-- A symbol term. -/
def symNode (s : String) (ln col : Nat) : Node :=
  .SymbolNode (symTok s ln col)

/-- An equality formula. -/
def eqForm (l r : Node) : Node :=
  .OpNode "=" l r

def inputMatching : String := "PROVE: x = y.\nx = y."

def inputCond : String := "PROVE: IF x = 1 THEN x = x.\nx = 1.\nTHEREFORE x = x."

def inputHeaderOnly : String := "PROVE: p = q."

def inputMismatch3 : String := "PROVE: x = y.\nz = y.\nx = y."

def inputMismatch2 : String := "PROVE: u = v.\nw = v."

def headerOnlyTokens : List Token :=
  [⟨"PROVE", .str "PROVE", 1, 0⟩, ⟨"COLON", .str ":", 1, 5⟩,
   symTok "p" 1 7, ⟨"EQ", .str "=", 1, 9⟩, symTok "q" 1 11,
   ⟨"DOT", .str ".", 1, 12⟩]

def goalXY : Node := eqForm (symNode "x" 1 7) (symNode "y" 1 11)

def clauseXY : Node :=
  .FormulaClauseNode none (eqForm (symNode "x" 2 0) (symNode "y" 2 4)) none

def goalUV : Node := eqForm (symNode "u" 1 7) (symNode "v" 1 11)

def clauseWV : Node :=
  .FormulaClauseNode none (eqForm (symNode "w" 2 0) (symNode "v" 2 4)) none

def clauseZY : Node :=
  .FormulaClauseNode none (eqForm (symNode "z" 2 0) (symNode "y" 2 4)) none

def clauseXY3 : Node :=
  .FormulaClauseNode none (eqForm (symNode "x" 3 0) (symNode "y" 3 4)) none

def letClauseEx : Node :=
  .LetNode (symTok "x" 1 4) (symNode "y" 1 8)

def thereforeClauseEx : Node :=
  .ThereforeNode (eqForm (symNode "x" 3 10) (symNode "x" 3 14))

def isaEvenFour : Node :=
  .IsANode (.NumberNode ⟨"NUMBER", .int 4, 1, 0⟩)
    (.CompoundSymbolNode [symTok "even" 1 7])

def defToken : Token := ⟨"DEFINITION", .str "DEFINITION", 1, 3⟩

def inputAbsorbedDot : String := "PROVE: x = y.\nx = 1.\nz."

def headerNumInput : String := "PROVE: x = 1."

def headerNumLast : Token := ⟨"NUMBER", .float 1 0, 1, 11⟩

def headerNumPre : List Token :=
  [⟨"PROVE", .str "PROVE", 1, 0⟩, ⟨"COLON", .str ":", 1, 5⟩,
   symTok "x" 1 7, ⟨"EQ", .str "=", 1, 9⟩]

/-! ## Claim theorems -/

/-- C1: for every input string `check_proof` never reaches the success
message (the `Accepted` verdict is unreachable); moreover, whenever
parsing succeeds, the body is nonempty, the goal is not a conditional and
the first-clause boundary check passes, the clause walk reads the
attribute `clauses` on the raw input string and dies with
`AttributeError` before the acceptance message. -/
theorem check_proof_never_accepts :
    (∀ s : String, isAccepted (check_proof s) = false) ∧
    (∀ (s : String) (stmt c0 f0 : Node) (rest : List Node),
      parse s = .ok ⟨stmt, c0 :: rest⟩ → isIfNode stmt = false →
      clauseFormulaAttr c0 = some f0 → formula_equals stmt f0 = true →
      check_proof s = .attributeError "'str' object has no attribute 'clauses'") := by
  constructor
  · intro s
    unfold check_proof
    repeat' first
    | rfl
    | split
  · intro s stmt c0 f0 rest hp hif hattr hfe
    unfold check_proof
    rw [hp]
    cases stmt <;>
      first
      | (simp only [hattr, hfe]; rfl)
      | simp [isIfNode] at hif

/-- Witness for C1 at the concrete proof text `PROVE: x = y.` with
matching body `x = y.`: the run dies with the `AttributeError`. -/
theorem check_proof_never_accepts_witness :
    check_proof inputMatching = .attributeError "'str' object has no attribute 'clauses'" :=
  check_proof_never_accepts.2 inputMatching goalXY clauseXY
    (eqForm (symNode "x" 2 0) (symNode "y" 2 4)) [] (by rfl) (by rfl) (by rfl) (by rfl)

/-- C2: the specified conditional proof `PROVE: IF x = 1 THEN x = x.` with
body `x = 1. THEREFORE x = x.` is not `Accepted`: the run already fails at
parse time, because the tokenizer absorbs the final period of `x = 1.`
into a float NUMBER token, so the DOT of that clause is missing. -/
theorem conditional_goal_example_rejected :
    check_proof inputCond =
      .errorExit "Error" "got THEREFORE, expected DOT, line 3 col 0" ∧
    isAccepted (check_proof inputCond) = false := ⟨by rfl, by rfl⟩

/-- C3: `follows` is a stub that returns `False` for every knowledge base,
formula and justification — in particular for `4 IS A even` cited by
`Definition`, even though the built-in parity predicate of
`src/predicates.py` evaluates to true on the literal 4 (and is never
consulted). -/
theorem follows_definition_always_false :
    (∀ (k : Knowledge) (f : Node) (j : Option Token), follows k f j = false) ∧
    follows ⟨[]⟩ isaEvenFour (some defToken) = false ∧
    check_predicate "even" 4 = some true ∧
    check_predicate "odd" 4 = some false :=
  ⟨fun _ _ _ => rfl, rfl, by rfl, by rfl⟩

/-- C4: the Validator does not fold any assertion into the knowledge base
(`update_knowledge` is `pass`), and `check_clause` treats `Let` and
`Therefore` clauses as unknown node types, exiting with an internal
error. -/
theorem validator_rejects_let_and_therefore :
    (∀ (k : Knowledge) (c : Node), update_knowledge k c = k) ∧
    check_clause ⟨[]⟩ letClauseEx =
      .error (.errorExit "Internal error" "unknown node type LetNode") ∧
    check_clause ⟨[]⟩ thereforeClauseEx =
      .error (.errorExit "Internal error" "unknown node type ThereforeNode") :=
  ⟨fun _ _ => rfl, by rfl, by rfl⟩

/-- C5: whenever the header parses and no tokens remain, the whole proof
parses successfully with an empty clause list (no SyntaxError), and
validation rejects it with the empty-body message. -/
theorem empty_body_semantic_rejection :
    ∀ (code : String) (ts : List Token) (stmt : Node),
      tokenize code = .ok ts →
      match_proof_statement (ts.length + 1) ts = .ok (stmt, []) →
      parse code = .ok ⟨stmt, []⟩ ∧
      check_proof code = .errorExit "Error" "the body of the proof is empty" := by
  intro code ts stmt htok hstmt
  have hparse : parse code = .ok ⟨stmt, []⟩ := by
    unfold parse
    rw [htok]
    show match_proof (ts.length + 1) ts = .ok ⟨stmt, []⟩
    unfold match_proof
    rw [hstmt]
    rfl
  refine ⟨hparse, ?_⟩
  unfold check_proof
  rw [hparse]

/-- Witness for C5 at the concrete header `PROVE: p = q.` with no body. -/
theorem empty_body_semantic_rejection_witness :
    parse inputHeaderOnly = .ok ⟨eqForm (symNode "p" 1 7) (symNode "q" 1 11), []⟩ ∧
    check_proof inputHeaderOnly = .errorExit "Error" "the body of the proof is empty" :=
  empty_body_semantic_rejection inputHeaderOnly headerOnlyTokens
    (eqForm (symNode "p" 1 7) (symNode "q" 1 11)) (by rfl) (by rfl)

/-- C6 counterexample: for the non-conditional goal `x = y` with first
clause `z = y` (mismatched) and final clause `x = y` (matching the goal),
the rejection message reads "the final statement of the proof does not
match the statement to be proven" — it names the final end although the
first clause is the one that failed and the final clause matches. -/
theorem boundary_mismatch_names_wrong_end :
    parse inputMismatch3 = .ok ⟨goalXY, [clauseZY, clauseXY3]⟩ ∧
    formula_equals goalXY (eqForm (symNode "z" 2 0) (symNode "y" 2 4)) = false ∧
    formula_equals goalXY (eqForm (symNode "x" 3 0) (symNode "y" 3 4)) = true ∧
    check_proof inputMismatch3 = .errorExit "Error"
      "the final statement of the proof does not match the statement to be proven" :=
  ⟨by rfl, by rfl, by rfl, by rfl⟩

/-- C6 (amended): for every non-conditional goal, a proof whose first
clause formula is not structurally equal to the goal is rejected with the
boundary-mismatch message — but that message always refers to "the final
statement", regardless of which end actually failed. -/
theorem boundary_mismatch_message_always_final :
    ∀ (s : String) (stmt c0 f0 : Node) (rest : List Node),
      parse s = .ok ⟨stmt, c0 :: rest⟩ → isIfNode stmt = false →
      clauseFormulaAttr c0 = some f0 → formula_equals stmt f0 = false →
      check_proof s = .errorExit "Error"
        "the final statement of the proof does not match the statement to be proven" := by
  intro s stmt c0 f0 rest hp hif hattr hfe
  unfold check_proof
  rw [hp]
  cases stmt <;>
    first
    | (simp only [hattr, hfe]; rfl)
    | simp [isIfNode] at hif

/-- Witness for the amended C6 at goal `u = v` with first clause `w = v`. -/
theorem boundary_mismatch_message_always_final_witness :
    check_proof inputMismatch2 = .errorExit "Error"
      "the final statement of the proof does not match the statement to be proven" :=
  boundary_mismatch_message_always_final inputMismatch2 goalUV clauseWV
    (eqForm (symNode "w" 2 0) (symNode "v" 2 4)) [] (by rfl) (by rfl) (by rfl) (by rfl)

/-- C7 counterexample: the claim asserts that any proof in which a
formula ends with a number directly followed by the clause-terminating
period fails to parse with a premature-end-of-input SyntaxError; but this
input, whose second line is exactly such a clause `x = 1.`, parses
successfully — the absorbed period turns `1.` into a float literal, that
literal multiplies the following line symbol `z` (NUMBER SYMBOL product),
and the final period of the text closes the clause. -/
theorem absorbed_period_can_parse_successfully :
    parse inputAbsorbedDot = .ok
      ⟨goalXY,
       [.FormulaClauseNode none
         (eqForm (symNode "x" 2 0)
           (.OpNode "*" (.NumberNode ⟨"NUMBER", .float 1 0, 2, 4⟩)
             (symNode "z" 3 0)))
         none]⟩ := by rfl

/-- C7 (amended): a numeric literal absorbs a directly following period
during longest-match scanning: `tokenize "1."` is a single NUMBER token
with the float value 1.0 and no DOT token.  Consequently a proof whose
token stream ends with such an absorbed NUMBER token (no final DOT — any
text ending in a digit followed by the period) never parses: every
successful parse ends on a DOT token, so parsing raises a SyntaxError; for
the header `PROVE: x = 1.`, whose well-formed prefix consumes every token,
the error is premature-end-of-input.  (When further source text follows
the absorbed period, the missing DOT can surface as a different
SyntaxError, or the input can even parse successfully with a silently
different AST.) -/
theorem number_token_absorbs_trailing_period :
    tokenize "1." = .ok [⟨"NUMBER", .float 1 0, 1, 0⟩] ∧
    parse "PROVE: x = 1." = .error "premature end of input" ∧
    (∀ (code : String) (ts pre : List Token) (last : Token),
      tokenize code = .ok ts → ts = pre ++ [last] → last.type ≠ "DOT" →
      ∃ e, parse code = .error e) :=
  ⟨by rfl, by rfl,
   fun _ _ _ _ htok hts hdot => parse_requires_final_dot htok hts hdot⟩

/-- Witness for the amended C7 at the header `PROVE: x = 1.`, whose token
stream ends with the absorbed NUMBER token instead of a DOT. -/
theorem number_token_absorbs_trailing_period_witness :
    ∃ e, parse headerNumInput = .error e :=
  number_token_absorbs_trailing_period.2.2 headerNumInput
    (headerNumPre ++ [headerNumLast]) headerNumPre headerNumLast
    (by rfl) rfl (by decide)

/-- C8: `tokenize "Let x be an integer."` yields exactly the six tokens
LET, SYMBOL(x), BE, A, SYMBOL(integer), DOT; and the spellings IS and AN
are reclassified, case-insensitively, to the same kinds as BE and A. -/
theorem tokenize_let_sentence_and_keyword_normalization :
    tokenize "Let x be an integer." = .ok
      [⟨"LET", .str "Let", 1, 0⟩, symTok "x" 1 4, ⟨"BE", .str "be", 1, 6⟩,
       ⟨"A", .str "an", 1, 9⟩, symTok "integer" 1 12, ⟨"DOT", .str ".", 1, 19⟩] ∧
    (tokenize "is").map (List.map Token.type) =
      (tokenize "be").map (List.map Token.type) ∧
    (tokenize "an").map (List.map Token.type) =
      (tokenize "a").map (List.map Token.type) ∧
    (tokenize "is").map (List.map Token.type) = .ok ["BE"] ∧
    (tokenize "Is").map (List.map Token.type) = .ok ["BE"] ∧
    (tokenize "IS").map (List.map Token.type) = .ok ["BE"] ∧
    (tokenize "an").map (List.map Token.type) = .ok ["A"] ∧
    (tokenize "An").map (List.map Token.type) = .ok ["A"] ∧
    (tokenize "AN").map (List.map Token.type) = .ok ["A"] :=
  ⟨by rfl, by rfl, by rfl, by rfl, by rfl, by rfl, by rfl, by rfl, by rfl⟩

/-- C9: `tokenize "0 1 697 24.837"` yields exactly four NUMBER tokens; the
integral literals keep their exact integer values and the literal with a
decimal point becomes the fractional value 24.837 (= 24837 / 10^3). -/
theorem tokenize_number_values :
    tokenize "0 1 697 24.837" = .ok
      [⟨"NUMBER", .int 0, 1, 0⟩, ⟨"NUMBER", .int 1, 1, 2⟩,
       ⟨"NUMBER", .int 697, 1, 4⟩, ⟨"NUMBER", .float 24837 3, 1, 8⟩] := by rfl

/-- C10 counterexample: on the input `"@"` the lexer error payload has
column 0 for the first character of the line, i.e. the column is 0-based
(the character sits at 0-based column 0 and there is no column 1), not
1-based as claimed. -/
theorem lex_error_column_zero_based_counterexample :
    tokenize "@" = .error ⟨"@", 1, 0⟩ ∧
    locate ("@").data 1 0 = some '@' ∧
    locate ("@").data 1 1 = none := ⟨by rfl, by rfl, by rfl⟩

/-- Witness for the amended C10 at the input `"@"`. -/
theorem tokenize_bad_char_rejected_witness :
    (∃ c ∈ ("@").data, strongMismatchChar c = true) ∧
    (∃ e c, tokenize "@" = .error e ∧ mismatchChar c = true ∧
      e.text = String.singleton c ∧ locate ("@").data e.line e.column = some c) :=
  ⟨by decide, tokenize_bad_char_rejected "@" (by decide)⟩

end Euclid
